import Mathlib

/-!
# Verification of the TimeAwareVariationalAutoEncoder data pipeline

Shallow embedding of `src/databunch/dataset.py` (the `VideoDataset` class and
the module-level `collate` function), of the `Label` type
(`src/src/pipeline/label.py`), and — modelled from the spec where the source
file is absent from the tree — of the frame sampler (§4.2 of the spec).

Conventions of the embedding:
* a pandas `DataFrame` of video metadata is a `List Row` whose positional
  order is the table order; the default integer index (`RangeIndex`) of a
  freshly read table is the position of the row in the list;
* Python `float` values that the code compares and multiplies exactly
  (`cut`, `keep`) are represented as `ℚ`;
* Python's builtin `round` (banker's rounding, round-half-to-even) is
  `pyRound`;
* pandas `Series` objects are association lists `List (κ × ν)`; label-based
  lookup is `seriesGet` (first entry whose key matches, `none` when the key
  is absent, mirroring a `KeyError`);
* exceptions are `Except` values; `assert` failures at construction are the
  spec's `ConfigurationError` taxon, pandas' `ValueError`/`TypeError` keep
  their Python names.
-/

namespace TAVAE

/-- One row of the metadata table: the fields the embedded code reads.
`lid` is the integer class id (also called `template_id`), `label` the
human-readable class name. -/
structure Row where
  lid : ℤ
  label : String
  deriving DecidableEq, Repr

/-- Python's builtin `round` on an exact rational: round half to even. -/
def pyRound (q : ℚ) : ℤ :=
  let f := ⌊q⌋
  let r := q - f
  if r < 1/2 then f
  else if 1/2 < r then f + 1
  else if f % 2 = 0 then f else f + 1

/-- `pd.Series.unique` of the `lid` column: values in order of first
appearance, duplicates dropped.  `seen` accumulates values already
emitted. -/
def uniqueAux (seen : List ℤ) : List Row → List ℤ
  | [] => []
  | r :: rs =>
    if r.lid ∈ seen then uniqueAux seen rs
    else r.lid :: uniqueAux (r.lid :: seen) rs

/-- `self.meta['lid'].unique()`. -/
def uniqueLids (meta : List Row) : List ℤ :=
  uniqueAux [] meta

/-- `self.meta[self.meta['lid'] == lid]`: the rows of one class, in table
order. -/
def classMeta (meta : List Row) (lid : ℤ) : List Row :=
  meta.filter (fun r => r.lid == lid)

/-- The retained head size of one class under stratified sampling:
`round(len(class_meta) * keep)` clamped to `ℕ` (it is never negative for
`keep ≥ 0`). -/
def keepCount (meta : List Row) (keep : ℚ) (lid : ℤ) : ℕ :=
  (pyRound ((classMeta meta lid).length * keep)).toNat

/-- Errors raised by the embedded Python code. -/
inductive PyError where
  /-- A failed `assert` at construction — the spec's `ConfigurationError`. -/
  | config : String → PyError
  /-- `pd.concat([])`: "No objects to concatenate". -/
  | valueError : PyError
  /-- `iloc` slicing with a non-integer bound. -/
  | typeError : PyError
  deriving DecidableEq, Repr

/-- `VideoDataset._stratified_sample_meta`: for each class id in order of
first appearance, the head of the class of size `round(class_size * keep)`;
the per-class samples are concatenated (`pd.concat`), which raises
`ValueError` when the list of samples is empty, i.e. when the table has no
rows. -/
def stratifiedSampleMeta (meta : List Row) (keep : ℚ) : Except PyError (List Row) :=
  match meta with
  | [] => .error .valueError
  | _ =>
    .ok (((uniqueLids meta).map
      (fun lid => (classMeta meta lid).take (keepCount meta keep lid))).flatten)

/-- A Python number as the code receives it in `data_opts.keep`: its exact
value together with whether its Python type is `int` (`isInt = true`) or
`float`. -/
structure PyNum where
  val : ℚ
  isInt : Bool
  deriving DecidableEq, Repr

/-- `self.meta.iloc[0:n]` for an integer `n`: Python slice semantics, a
negative bound counts from the end. -/
def pyHeadSlice (meta : List Row) (n : ℤ) : List Row :=
  if 0 ≤ n then meta.take n.toNat
  else meta.take ((meta.length : ℤ) + n).toNat

/-- The `keep` branch of `VideoDataset.__init__` (lines 47–51): when a keep
value is present, the branch is selected by the value alone
(`0 <= keep < 1` stratifies; otherwise `iloc[0:keep]`, which requires a
Python `int` and raises `TypeError` on a `float`). -/
def subsetMeta (meta : List Row) : Option PyNum → Except PyError (List Row)
  | none => .ok meta
  | some k =>
    if 0 ≤ k.val ∧ k.val < 1 then stratifiedSampleMeta meta k.val
    else if k.isInt then .ok (pyHeadSlice meta k.val.num)
    else .error .typeError

/-- `self.meta.groupby('lid')['label'].head(1)`: the first row of every
`lid` group, as a Series that keeps the ORIGINAL row index (pandas
`GroupBy.head` does not re-index by the group key).  `seen` holds class ids
whose head row was already emitted and `i` the current row index. -/
def groupHeadsAux (seen : List ℤ) (i : ℤ) : List Row → List (ℤ × Row)
  | [] => []
  | r :: rs =>
    if r.lid ∈ seen then groupHeadsAux seen (i + 1) rs
    else (i, r) :: groupHeadsAux (r.lid :: seen) (i + 1) rs

/-- `self.lid2labels`: Series of class-head labels, indexed by the head
row's original table index. -/
def lid2labels (meta : List Row) : List (ℤ × String) :=
  (groupHeadsAux [] 0 meta).map (fun p => (p.1, p.2.label))

/-- `self.labels2lid = self.lid2labels.reset_index().set_index('label')`:
the former Series re-keyed by the label string; its stored value is the
former index column, i.e. the head row's original table index. -/
def labels2lid (meta : List Row) : List (String × ℤ) :=
  (lid2labels meta).map (fun p => (p.2, p.1))

/-- Label-based lookup in a pandas Series/indexed frame: the first entry
with the given key, `none` when the key is absent (a `KeyError`). -/
def seriesGet {κ ν : Type} [BEq κ] (s : List (κ × ν)) (k : κ) : Option ν :=
  (s.find? (fun p => p.1 == k)).map (fun p => p.2)

/-- One `imgaug` augmenter of the composed sequence, with the constructor
arguments the code passes (`position` keeps imgaug's default `"uniform"`
when the code does not set it). -/
inductive AugOp where
  | padToFixedSize (width height : ℕ) (position : String)
  | cropToFixedSize (width height : ℕ) (position : String)
  | fliplr (p : ℚ)
  | flipud (p : ℚ)
  | add (lo hi : ℤ)
  | addToHueAndSaturation (lo hi : ℤ)
  deriving DecidableEq, Repr

set_option linter.unusedVariables false in
/-- `VideoDataset._compose_aug_seq`.  The method reads `self.do.setting`
and (although `self.frame_size` is in scope) hardcodes `224` for every
size argument. -/
def composeAugSeq (frameSize : ℤ) (setting : String) : List AugOp :=
  if setting == "train" then
    [ .padToFixedSize 224 224 "uniform",
      .cropToFixedSize 224 224 "uniform",
      .fliplr (1/2),
      .flipud (1/2),
      .add (-25) 25,
      .addToHueAndSaturation (-25) 25 ]
  else
    [ .padToFixedSize 224 224 "center",
      .cropToFixedSize 224 224 "center" ]

/-- The augmentation sequence as §4.3 of the spec words it: pad and crop at
`frame_size × frame_size` (random offset for train, both anchored at center
for eval), flips with p = 0.5 and the additive jitters for train only.
Stated from the spec, to be compared with `composeAugSeq`. -/
def specAugSeq (frameSize : ℕ) (setting : String) : List AugOp :=
  if setting == "train" then
    [ .padToFixedSize frameSize frameSize "uniform",
      .cropToFixedSize frameSize frameSize "uniform",
      .fliplr (1/2),
      .flipud (1/2),
      .add (-25) 25,
      .addToHueAndSaturation (-25) 25 ]
  else
    [ .padToFixedSize frameSize frameSize "center",
      .cropToFixedSize frameSize frameSize "center" ]

/-- The state of the embedded `VideoDataset` after `__init__` succeeds. -/
structure VideoDataset where
  cut : ℚ
  frame_size : ℤ
  setting : String
  meta : List Row
  lids : List ℤ
  lid2labels : List (ℤ × String)
  labels2lid : List (String × ℤ)
  aug_seq : List AugOp
  deriving DecidableEq, Repr

/-- `VideoDataset.__init__`: the two `assert`s (→ `ConfigurationError`),
then the lookup tables derived from the FULL table, then the optional
`keep` subsetting of `self.meta`, then the augmentation sequence.
`frame_size` is stored but never validated. -/
def initDataset (cut : ℚ) (frame_size : ℤ) (setting : String)
    (meta : List Row) (keep : Option PyNum) : Except PyError VideoDataset :=
  if ¬(0 ≤ cut ∧ cut ≤ 1) then .error (.config "cut")
  else if ¬(setting = "train" ∨ setting = "eval") then .error (.config "setting")
  else
    match subsetMeta meta keep with
    | .error e => .error e
    | .ok m =>
      .ok { cut := cut
            frame_size := frame_size
            setting := setting
            meta := m
            lids := uniqueLids meta
            lid2labels := lid2labels meta
            labels2lid := labels2lid meta
            aug_seq := composeAugSeq frame_size setting }

/-! ## Deterministic-per-sample augmentation (`VideoDataset.aug`)

`imgaug` is an external library; its random machinery is modelled
executably but opaquely: an augmenter owns an integer random state, one
parameter draw consumes the state and yields the full record of randomized
parameters of the composed sequence, and — imgaug's documented contract —
`to_deterministic()` freezes the state, so that every subsequent
`augment_image` call re-draws from the SAME state instead of advancing it. -/

/-- The full record of randomized parameters one draw of the composed train
sequence produces: crop offset (uniform position of `CropToFixedSize` /
`PadToFixedSize`), the two flip decisions, and the two additive jitter
values. -/
structure AugParams where
  cropX : ℕ
  cropY : ℕ
  fliplr : Bool
  flipud : Bool
  addVal : ℤ
  hueSatVal : ℤ
  deriving DecidableEq, Repr

/-- A raw decoded frame.  Pixel content is opaque to every claim about the
pipeline; an integer code stands for it. -/
abbrev Frame : Type := ℤ

/-- Derives the concrete parameter record from a random state (a model of
imgaug's generator: any fixed executable function works, the claims are
about WHICH state each frame's draw uses). -/
def paramsOfState (s : ℕ) : AugParams :=
  { cropX := s % 224
    cropY := (s / 224) % 224
    fliplr := s % 2 == 0
    flipud := (s / 2) % 2 == 0
    addVal := (s % 51 : ℤ) - 25
    hueSatVal := ((s / 51) % 51 : ℤ) - 25 }

/-- Advancing the random state after a draw (model of the generator's
`next`). -/
def nextState (s : ℕ) : ℕ :=
  (s * 1103515245 + 12345) % 2147483648

/-- An imgaug augmenter sequence as the code holds it: a random state plus
the deterministic flag set by `to_deterministic()`. -/
structure Augmenter where
  state : ℕ
  deterministic : Bool
  deriving DecidableEq, Repr

/-- `aug_seq.to_deterministic()`: freeze the current random state. -/
def toDeterministic (a : Augmenter) : Augmenter :=
  { a with deterministic := true }

/-- `augment_image`: draw the sequence's randomized parameters, apply them
to the frame, and advance the state — unless the augmenter is
deterministic, in which case the state is restored so the next call
replays the same draw. -/
def augmentImage (a : Augmenter) (f : Frame) : (AugParams × Frame) × Augmenter :=
  let p := paramsOfState a.state
  ((p, f + p.addVal + p.hueSatVal), if a.deterministic then a else { a with state := nextState a.state })

/-- Fold of `augment_image` over the frames of one video, threading the
augmenter state left to right and recording, for each frame, the parameter
record that was applied to it. -/
def augRun (a : Augmenter) : List Frame → List (AugParams × Frame) × Augmenter
  | [] => ([], a)
  | f :: fs =>
    let (pf, a1) := augmentImage a f
    let (rest, a2) := augRun a1 fs
    (pf :: rest, a2)

/-- `VideoDataset.aug`: make the sequence deterministic ONCE per call (one
call = one sample), then augment every frame with the deterministic
instance. -/
def VideoDataset.aug (a : Augmenter) (video_data : List Frame) : List (AugParams × Frame) :=
  (augRun (toDeterministic a) video_data).1

/-! ## Tensors, `Label` and `collate` -/

/-- A float tensor: its shape and flat data buffer. -/
structure Tensor where
  shape : List ℕ
  data : List ℚ
  deriving DecidableEq, Repr

/-- An integer tensor (`th.tensor(…, dtype=th.int64)`). -/
structure IntTensor where
  shape : List ℕ
  data : List ℤ
  dtype : String
  deriving DecidableEq, Repr

/-- The transient `Video` object at collation time: its metadata and its
per-frame tensors (`video.data` after augmentation). -/
structure Video where
  meta : Row
  data : List Tensor
  deriving DecidableEq, Repr

/-- `Label` (`pipeline/label.py`): wraps a metadata row; `data` is the
integer class id (`meta.template_id`, the `lid`). -/
structure Label where
  meta : Row
  data : ℤ
  deriving DecidableEq, Repr

/-- `Label.__init__`. -/
def mkLabel (meta : Row) : Label :=
  { meta := meta, data := meta.lid }

/-- Errors `collate` can surface. -/
inductive CollateError where
  /-- `videos, labels = zip(*batch)` with an empty batch: unpacking zero
  values into two names raises `ValueError`. -/
  | emptyBatch
  /-- `th.stack` of an empty tensor list. -/
  | emptyStack
  /-- `th.stack` of tensors of unequal shapes — the spec's
  `ShapeMismatchError` taxon. -/
  | shapeMismatch
  deriving DecidableEq, Repr

/-- `th.stack(ts, dim=0)`: requires a non-empty list of tensors of one
common shape; the result prepends the list length to that shape. -/
def stack (ts : List Tensor) : Except CollateError Tensor :=
  match ts with
  | [] => .error .emptyStack
  | t :: rest =>
    if rest.all (fun u => u.shape == t.shape)
    then .ok { shape := (t :: rest).length :: t.shape
               data := ((t :: rest).map (fun u => u.data)).flatten }
    else .error .shapeMismatch

/-- `videos, labels = zip(*batch)`. -/
def unzipBatch (batch : List (Video × Label)) :
    Except CollateError (List Video × List Label) :=
  match batch with
  | [] => .error .emptyBatch
  | _ => .ok (batch.map (fun p => p.1), batch.map (fun p => p.2))

/-- `collate` (`databunch/dataset.py` lines 22–28): unpack the batch, stack
each video's frames, stack the per-video tensors, build the `int64` label
tensor, and pass the original objects through.  Each failing step raises
through. -/
def collate (batch : List (Video × Label)) :
    Except CollateError (Tensor × IntTensor × List Video × List Label) :=
  match unzipBatch batch with
  | .error e => .error e
  | .ok (videos, labels) =>
    match videos.mapM (fun v => stack v.data) with
    | .error e => .error e
    | .ok frameStacks =>
      match stack frameStacks with
      | .error e => .error e
      | .ok videos_data =>
        .ok (videos_data,
          { shape := [labels.length], data := labels.map (fun l => l.data),
            dtype := "int64" },
          videos, labels)

/-! ## Frame sampler (§4.2)

`databunch/video.py` is not part of the source tree; only its caller
(`VideoDataset.__getitem__`) is.  The sampler below is modelled from the
spec. -/

/-- Modelled from the spec: the eligible frame range of §4.2 — sampling is
restricted to `[0, floor(length * cut))`. -/
def eligibleFrames (length : ℕ) (cut : ℚ) : ℕ :=
  (⌊(length : ℚ) * cut⌋).toNat

/-- Modelled from the spec: the lower bound of temporal bin `i` when `n`
eligible frames are divided into `segs` contiguous roughly equal bins. -/
def binLo (n segs i : ℕ) : ℕ := i * n / segs

/-- Modelled from the spec: the (exclusive) upper bound of temporal bin `i`. -/
def binHi (n segs i : ℕ) : ℕ := (i + 1) * n / segs

/-- Modelled from the spec: the `eval` sampler (`databunch/video.py` is
missing from the tree) — one fixed index per bin, the bin's midpoint,
clamped into the eligible range so that degenerate (empty) bins repeat a
neighbouring index instead of failing; no indices when no frame is
eligible. -/
def evalSample (length segs : ℕ) (cut : ℚ) : List ℕ :=
  if eligibleFrames length cut = 0 then []
  else (List.range segs).map (fun i =>
    min ((binLo (eligibleFrames length cut) segs i
          + binHi (eligibleFrames length cut) segs i) / 2)
        (eligibleFrames length cut - 1))

/-- Modelled from the spec: the `train` sampler — one index drawn uniformly
at random from each bin, the draw `r i` reduced into the bin; degenerate
bins fall back to a clamped deterministic index. -/
def trainSample (length segs : ℕ) (cut : ℚ) (r : ℕ → ℕ) : List ℕ :=
  if eligibleFrames length cut = 0 then []
  else (List.range segs).map (fun i =>
    if binLo (eligibleFrames length cut) segs i
        < binHi (eligibleFrames length cut) segs i
    then binLo (eligibleFrames length cut) segs i
      + r i % (binHi (eligibleFrames length cut) segs i
               - binLo (eligibleFrames length cut) segs i)
    else min (binLo (eligibleFrames length cut) segs i) (eligibleFrames length cut - 1))

/-- Modelled from the spec: the sampler selected by the dataset's
`setting`. -/
def sampleIndices (setting : String) (length segs : ℕ) (cut : ℚ) (r : ℕ → ℕ) : List ℕ :=
  if setting == "train" then trainSample length segs cut r
  else evalSample length segs cut

/-- `F.to_tensor` on a `uint8` image: the value mapping is division by 255
(the layout change HWC → CHW does not alter values). -/
def toTensorValues (pixels : List ℕ) : List ℚ :=
  pixels.map (fun v : ℕ => (v : ℚ) / 255)

/-! ## Lemmas about the metadata operations -/

theorem mem_uniqueAux {x : ℤ} : ∀ (l : List Row) (seen : List ℤ),
    x ∈ uniqueAux seen l ↔ (∃ r ∈ l, r.lid = x) ∧ x ∉ seen := by
  intro l
  induction l with
  | nil => simp [uniqueAux]
  | cons r rs ih =>
    intro seen
    by_cases h : r.lid ∈ seen
    · rw [uniqueAux, if_pos h, ih]
      constructor
      · rintro ⟨⟨s, hs, rfl⟩, hns⟩
        exact ⟨⟨s, List.mem_cons_of_mem _ hs, rfl⟩, hns⟩
      · rintro ⟨⟨s, hs, rfl⟩, hns⟩
        rcases List.mem_cons.1 hs with rfl | hs'
        · exact absurd h hns
        · exact ⟨⟨s, hs', rfl⟩, hns⟩
    · rw [uniqueAux, if_neg h, List.mem_cons, ih]
      constructor
      · rintro (rfl | ⟨⟨s, hs, rfl⟩, hns⟩)
        · exact ⟨⟨r, List.mem_cons_self _ _, rfl⟩, h⟩
        · have hns' : s.lid ∉ seen := fun hx => hns (List.mem_cons_of_mem _ hx)
          exact ⟨⟨s, List.mem_cons_of_mem _ hs, rfl⟩, hns'⟩
      · rintro ⟨⟨s, hs, hsx⟩, hns⟩
        rcases List.mem_cons.1 hs with rfl | hs'
        · exact Or.inl hsx.symm
        · by_cases hx : x = r.lid
          · exact Or.inl hx
          · refine Or.inr ⟨⟨s, hs', hsx⟩, ?_⟩
            simp only [List.mem_cons, not_or]
            exact ⟨hx, hns⟩

theorem nodup_uniqueAux : ∀ (l : List Row) (seen : List ℤ),
    (uniqueAux seen l).Nodup := by
  intro l
  induction l with
  | nil => intro seen; simp [uniqueAux]
  | cons r rs ih =>
    intro seen
    by_cases h : r.lid ∈ seen
    · rw [uniqueAux, if_pos h]
      exact ih seen
    · rw [uniqueAux, if_neg h]
      refine List.nodup_cons.2 ⟨?_, ih (r.lid :: seen)⟩
      intro hmem
      exact ((mem_uniqueAux rs _).1 hmem).2 (List.mem_cons_self _ _)

theorem nodup_uniqueLids (meta : List Row) : (uniqueLids meta).Nodup :=
  nodup_uniqueAux meta []

theorem mem_uniqueLids {meta : List Row} {x : ℤ} :
    x ∈ uniqueLids meta ↔ ∃ r ∈ meta, r.lid = x := by
  simp [uniqueLids, mem_uniqueAux]

theorem lid_mem_uniqueLids {meta : List Row} {r : Row} (h : r ∈ meta) :
    r.lid ∈ uniqueLids meta :=
  mem_uniqueLids.2 ⟨r, h, rfl⟩

theorem mem_classMeta {meta : List Row} {lid : ℤ} {r : Row} :
    r ∈ classMeta meta lid ↔ r ∈ meta ∧ r.lid = lid := by
  simp [classMeta, List.mem_filter]

theorem classMeta_eq_nil_of_not_mem {meta : List Row} {lid : ℤ}
    (h : lid ∉ uniqueLids meta) : classMeta meta lid = [] := by
  rw [List.eq_nil_iff_forall_not_mem]
  intro r hr
  rcases mem_classMeta.1 hr with ⟨hmem, rfl⟩
  exact h (lid_mem_uniqueLids hmem)

/-- The per-class chunks built by `_stratified_sample_meta`. -/
def stratChunk (meta : List Row) (f : ℤ → ℕ) (lid : ℤ) : List Row :=
  (classMeta meta lid).take (f lid)

theorem mem_stratChunk {meta : List Row} {f : ℤ → ℕ} {l : ℤ} {r : Row}
    (h : r ∈ stratChunk meta f l) : r.lid = l :=
  (mem_classMeta.1 (List.mem_of_mem_take h)).2

theorem filter_stratChunk_self (meta : List Row) (f : ℤ → ℕ) (l : ℤ) :
    (stratChunk meta f l).filter (fun r => r.lid == l) = stratChunk meta f l := by
  rw [List.filter_eq_self]
  intro r hr
  simpa using mem_stratChunk hr

theorem filter_stratChunk_other (meta : List Row) (f : ℤ → ℕ) {l lid : ℤ}
    (h : l ≠ lid) :
    (stratChunk meta f l).filter (fun r => r.lid == lid) = [] := by
  rw [List.filter_eq_nil_iff]
  intro r hr
  have := mem_stratChunk hr
  simp [this, h]

theorem filter_chunks_not_mem (meta : List Row) (f : ℤ → ℕ) {lid : ℤ} :
    ∀ (L : List ℤ), lid ∉ L →
      ((L.map (stratChunk meta f)).flatten).filter (fun r => r.lid == lid) = [] := by
  intro L
  induction L with
  | nil => intro _; simp
  | cons l L' ih =>
    intro h
    simp only [List.mem_cons, not_or] at h
    simp only [List.map_cons, List.flatten_cons, List.filter_append,
      filter_stratChunk_other meta f (Ne.symm h.1), List.nil_append]
    exact ih h.2

theorem filter_chunks_mem (meta : List Row) (f : ℤ → ℕ) {lid : ℤ} :
    ∀ (L : List ℤ), L.Nodup → lid ∈ L →
      ((L.map (stratChunk meta f)).flatten).filter (fun r => r.lid == lid)
        = stratChunk meta f lid := by
  intro L
  induction L with
  | nil => intro _ h; simp at h
  | cons l L' ih =>
    intro hnd hmem
    rcases List.mem_cons.1 hmem with rfl | hmem'
    · simp only [List.map_cons, List.flatten_cons, List.filter_append,
        filter_stratChunk_self,
        filter_chunks_not_mem meta f L' (List.nodup_cons.1 hnd).1,
        List.append_nil]
    · have hne : l ≠ lid := by
        rintro rfl
        exact (List.nodup_cons.1 hnd).1 hmem'
      simp only [List.map_cons, List.flatten_cons, List.filter_append,
        filter_stratChunk_other meta f hne, List.nil_append]
      exact ih (List.nodup_cons.1 hnd).2 hmem'

theorem pyRound_nonneg {q : ℚ} (h : 0 ≤ q) : 0 ≤ pyRound q := by
  have hf : (0 : ℤ) ≤ ⌊q⌋ := Int.le_floor.2 (by exact_mod_cast h)
  unfold pyRound
  dsimp only
  split
  · exact hf
  · split
    · omega
    · split <;> omega

theorem pyRound_le {q : ℚ} {c : ℤ} (h : q < c) : pyRound q ≤ c := by
  have hf : ⌊q⌋ < c := Int.floor_lt.2 (by exact_mod_cast h)
  unfold pyRound
  dsimp only
  split
  · omega
  · split
    · omega
    · split <;> omega

theorem keepCount_le {meta : List Row} {k : ℚ} (lid : ℤ)
    (h1 : k < 1) :
    keepCount meta k lid ≤ (classMeta meta lid).length := by
  unfold keepCount
  rcases Nat.eq_zero_or_pos (classMeta meta lid).length with hz | hp
  · rw [hz]
    simp only [Nat.cast_zero, zero_mul]
    have : pyRound 0 = 0 := by norm_num [pyRound]
    simp [this]
  · have hlt : ((classMeta meta lid).length : ℚ) * k
        < ((classMeta meta lid).length : ℤ) := by
      push_cast
      calc ((classMeta meta lid).length : ℚ) * k
          < ((classMeta meta lid).length : ℚ) * 1 := by
            exact mul_lt_mul_of_pos_left h1 (by exact_mod_cast hp)
        _ = ((classMeta meta lid).length : ℚ) := mul_one _
    have := pyRound_le hlt
    omega

theorem length_stratChunk {meta : List Row} {k : ℚ} (lid : ℤ)
    (h1 : k < 1) :
    (stratChunk meta (keepCount meta k) lid).length = keepCount meta k lid := by
  unfold stratChunk
  rw [List.length_take]
  exact Nat.min_eq_left (keepCount_le lid h1)

/-! ## C1 — keep subsetting -/

/-- C1 fails as stated on the empty metadata table: with a fractional
`keep`, `_stratified_sample_meta` calls `pd.concat` on an empty list of
per-class samples, which raises `ValueError` instead of producing a
(trivially) subset table. -/
theorem c1_counterexample :
    ¬ ∃ m : List Row, subsetMeta [] (some ⟨1/2, false⟩) = .ok m := by
  rintro ⟨m, hm⟩
  have : subsetMeta [] (some ⟨1/2, false⟩) = .error .valueError := by
    rw [subsetMeta, if_pos (by norm_num)]
    rfl
  rw [this] at hm
  exact Except.noConfusion hm

/-- A small two-class metadata table used to instantiate C1. -/
def c1Meta : List Row :=
  [⟨5, "a"⟩, ⟨5, "b"⟩, ⟨5, "c"⟩, ⟨9, "d"⟩, ⟨9, "e"⟩]

/-- C1 (amended: the stratified branch additionally requires a non-empty
table, since `pd.concat([])` raises): for every NON-EMPTY metadata table,
a fractional keep in `[0,1)` retains, for each class id, exactly the first
`round(class_size * keep)` rows of that class in table order, with total
size the sum of the per-class counts and no cross-class leakage; an
integer keep `≥ 1` instead retains the first `keep` rows of the whole
table; the two branch conditions are mutually exclusive. -/
theorem c1_keep_subsetting (meta : List Row) (k : PyNum) :
    (0 ≤ k.val → k.val < 1 → meta ≠ [] →
      ∃ m, subsetMeta meta (some k) = .ok m
        ∧ (∀ lid : ℤ, m.filter (fun r => r.lid == lid)
            = (classMeta meta lid).take (keepCount meta k.val lid))
        ∧ m.length = ((uniqueLids meta).map (keepCount meta k.val)).sum)
    ∧ (k.isInt = true → 1 ≤ k.val →
        subsetMeta meta (some k) = .ok (meta.take k.val.num.toNat))
    ∧ ¬((0 ≤ k.val ∧ k.val < 1) ∧ 1 ≤ k.val) := by
  refine ⟨?_, ?_, ?_⟩
  · intro h0 h1 hne
    have hcond : 0 ≤ k.val ∧ k.val < 1 := ⟨h0, h1⟩
    have hstrat : stratifiedSampleMeta meta k.val
        = .ok (((uniqueLids meta).map (stratChunk meta (keepCount meta k.val))).flatten) := by
      cases meta with
      | nil => exact absurd rfl hne
      | cons a l => rfl
    refine ⟨((uniqueLids meta).map (stratChunk meta (keepCount meta k.val))).flatten,
      ?_, ?_, ?_⟩
    · rw [subsetMeta, if_pos hcond, hstrat]
    · intro lid
      by_cases hmem : lid ∈ uniqueLids meta
      · rw [filter_chunks_mem meta _ (uniqueLids meta) (nodup_uniqueLids meta) hmem]
        rfl
      · rw [filter_chunks_not_mem meta _ (uniqueLids meta) hmem,
          classMeta_eq_nil_of_not_mem hmem, List.take_nil]
    · rw [List.length_flatten, List.map_map]
      congr 1
      refine List.map_congr_left ?_
      intro lid _
      exact length_stratChunk lid h1
  · intro hInt hge
    have hncond : ¬(0 ≤ k.val ∧ k.val < 1) := by
      rintro ⟨_, hlt⟩
      linarith
    have hnum : 0 ≤ k.val.num := by
      have : (0 : ℚ) < k.val := lt_of_lt_of_le one_pos hge
      exact le_of_lt (Rat.num_pos.2 this)
    rw [subsetMeta, if_neg hncond, if_pos hInt, pyHeadSlice, if_pos hnum]
  · rintro ⟨⟨_, hlt⟩, hge⟩
    linarith

/-- Witness for C1: at a 5-row, two-class table, `keep = 0.5` (3 rows of
class 5 round to 2, 2 rows of class 9 round to 1) and `keep = 3` (first 3
rows). -/
theorem c1_keep_subsetting_witness :
    (∃ m, subsetMeta c1Meta (some ⟨1/2, false⟩) = .ok m
      ∧ (∀ lid : ℤ, m.filter (fun r => r.lid == lid)
          = (classMeta c1Meta lid).take (keepCount c1Meta (1/2) lid))
      ∧ m.length = ((uniqueLids c1Meta).map (keepCount c1Meta (1/2))).sum)
    ∧ subsetMeta c1Meta (some ⟨3, true⟩) = .ok (c1Meta.take ((3 : ℚ).num.toNat)) := by
  constructor
  · exact (c1_keep_subsetting c1Meta ⟨1/2, false⟩).1 (by norm_num) (by norm_num) (by decide)
  · exact (c1_keep_subsetting c1Meta ⟨3, true⟩).2.1 rfl (by norm_num)

/-! ## C4 — label ↔ class-id lookup tables -/

deriving instance DecidableEq for Except

/-- C4 evaluated at a one-row table (lid 7, label "a", default integer
index): `groupby('lid')['label'].head(1)` keeps the ORIGINAL row index, so
`lid2labels` is keyed by row position — looking it up at the lid 7 finds
nothing (a `KeyError`), and `labels2lid["a"]` stores the head row's table
index 0, not the lid 7.  The lookups are not mutual inverses. -/
theorem c4_lookup_code_eval :
    seriesGet (lid2labels [⟨7, "a"⟩]) 7 = none
    ∧ seriesGet (labels2lid [⟨7, "a"⟩]) "a" = some 0
    ∧ seriesGet (lid2labels [⟨7, "a"⟩]) 7 ≠ some "a"
    ∧ seriesGet (labels2lid [⟨7, "a"⟩]) "a" ≠ some 7 := by
  decide

/-! ## C10 — lookups are derived before subsetting -/

theorem groupHeadsAux_covers : ∀ (l : List Row) (seen : List ℤ) (i : ℤ) (x : ℤ),
    (∃ r ∈ l, r.lid = x) → x ∉ seen →
      ∃ p ∈ groupHeadsAux seen i l, p.2.lid = x := by
  intro l
  induction l with
  | nil => rintro seen i x ⟨r, hr, _⟩ _; simp at hr
  | cons r rs ih =>
    rintro seen i x ⟨s, hs, rfl⟩ hns
    by_cases h : r.lid ∈ seen
    · rw [groupHeadsAux, if_pos h]
      rcases List.mem_cons.1 hs with rfl | hs'
      · exact absurd h hns
      · exact ih seen (i + 1) s.lid ⟨s, hs', rfl⟩ hns
    · rw [groupHeadsAux, if_neg h]
      by_cases hx : s.lid = r.lid
      · exact ⟨(i, r), List.mem_cons_self _ _, hx.symm⟩
      · rcases List.mem_cons.1 hs with rfl | hs'
        · exact absurd rfl hx
        · obtain ⟨p, hp, hpl⟩ := ih (r.lid :: seen) (i + 1) s.lid ⟨s, hs', rfl⟩
            (by simp only [List.mem_cons, not_or]; exact ⟨hx, hns⟩)
          exact ⟨p, List.mem_cons_of_mem _ hp, hpl⟩

/-- C10: the set of class ids and both lookup tables are computed from the
FULL metadata table, before any `keep` subsetting touches `self.meta`, so
they are invariant under subsetting; in particular every row of the full
table — including one of a class the subsetting removed entirely — still
has its class id in `lids` and its class's head-row entry in both lookup
tables. -/
theorem c10_lookups_precede_subsetting (cut : ℚ) (frame_size : ℤ)
    (setting : String) (meta : List Row) (keep : Option PyNum)
    (ds : VideoDataset)
    (h : initDataset cut frame_size setting meta keep = .ok ds) :
    ds.lids = uniqueLids meta
    ∧ ds.lid2labels = lid2labels meta
    ∧ ds.labels2lid = labels2lid meta
    ∧ (∀ r ∈ meta, r.lid ∈ ds.lids
        ∧ ∃ p ∈ groupHeadsAux [] 0 meta, p.2.lid = r.lid
            ∧ (p.1, p.2.label) ∈ ds.lid2labels
            ∧ (p.2.label, p.1) ∈ ds.labels2lid) := by
  rw [initDataset] at h
  by_cases h1 : ¬(0 ≤ cut ∧ cut ≤ 1)
  · rw [if_pos h1] at h; exact Except.noConfusion h
  rw [if_neg h1] at h
  by_cases h2 : ¬(setting = "train" ∨ setting = "eval")
  · rw [if_pos h2] at h; exact Except.noConfusion h
  rw [if_neg h2] at h
  cases hsub : subsetMeta meta keep with
  | error e => rw [hsub] at h; exact Except.noConfusion h
  | ok m =>
      rw [hsub] at h
      injection h with h'
      subst h'
      refine ⟨rfl, rfl, rfl, ?_⟩
      intro r hr
      refine ⟨lid_mem_uniqueLids hr, ?_⟩
      obtain ⟨p, hp, hpl⟩ :=
        groupHeadsAux_covers meta [] 0 r.lid ⟨r, hr, rfl⟩ (List.not_mem_nil _)
      exact ⟨p, hp, hpl, List.mem_map.2 ⟨p, hp, rfl⟩,
        List.mem_map.2 ⟨(p.1, p.2.label), List.mem_map.2 ⟨p, hp, rfl⟩, rfl⟩⟩

/-- The table used to instantiate C10: class 8 has a single row, which a
stratified `keep = 1/4` removes entirely (`round(1 * 0.25) = 0`). -/
def c10Meta : List Row :=
  [⟨3, "x"⟩, ⟨3, "x"⟩, ⟨3, "x"⟩, ⟨8, "y"⟩]

/-- Witness for C10: constructing the dataset over `c10Meta` with
`keep = 1/4` leaves no row of class 8 in `meta`, yet 8 is still in `lids`
and the class's head entry is still in both lookups. -/
theorem c10_lookups_precede_subsetting_witness :
    ∃ ds, initDataset 1 224 "eval" c10Meta (some ⟨1/4, false⟩) = .ok ds
      ∧ ds.meta.filter (fun r => r.lid == 8) = []
      ∧ ds.lids = uniqueLids c10Meta
      ∧ ds.lid2labels = lid2labels c10Meta
      ∧ ds.labels2lid = labels2lid c10Meta
      ∧ ((8 : ℤ) ∈ ds.lids
          ∧ ∃ p ∈ groupHeadsAux [] 0 c10Meta, p.2.lid = 8
              ∧ (p.1, p.2.label) ∈ ds.lid2labels
              ∧ (p.2.label, p.1) ∈ ds.labels2lid) := by
  have k3 : keepCount c10Meta (1/4) 3 = 1 := by
    unfold keepCount
    rw [show classMeta c10Meta 3 = [⟨3, "x"⟩, ⟨3, "x"⟩, ⟨3, "x"⟩] from rfl]
    unfold pyRound
    norm_num
  have k8 : keepCount c10Meta (1/4) 8 = 0 := by
    unfold keepCount
    rw [show classMeta c10Meta 8 = [⟨8, "y"⟩] from rfl]
    unfold pyRound
    norm_num
  have hsub : subsetMeta c10Meta (some ⟨1/4, false⟩) = .ok [⟨3, "x"⟩] := by
    rw [subsetMeta, if_pos (by norm_num)]
    show stratifiedSampleMeta c10Meta (1/4) = .ok [⟨3, "x"⟩]
    rw [show stratifiedSampleMeta c10Meta (1/4)
        = .ok (((uniqueLids c10Meta).map
            (fun lid => (classMeta c10Meta lid).take
              (keepCount c10Meta (1/4) lid))).flatten) from rfl,
      show uniqueLids c10Meta = [3, 8] from rfl]
    simp only [List.map_cons, List.map_nil]
    rw [k3, k8]
    rfl
  have h : initDataset 1 224 "eval" c10Meta (some ⟨1/4, false⟩)
      = .ok { cut := 1, frame_size := 224, setting := "eval",
              meta := [⟨3, "x"⟩],
              lids := uniqueLids c10Meta,
              lid2labels := lid2labels c10Meta,
              labels2lid := labels2lid c10Meta,
              aug_seq := composeAugSeq 224 "eval" } := by
    rw [initDataset,
      if_neg (show ¬¬((0:ℚ) ≤ 1 ∧ (1:ℚ) ≤ 1) from fun hc => hc ⟨by norm_num, by norm_num⟩),
      if_neg (show ¬¬("eval" = "train" ∨ "eval" = "eval") from fun hc => hc (Or.inr rfl)),
      hsub]
  refine ⟨_, h, by decide, ?_⟩
  have := c10_lookups_precede_subsetting 1 224 "eval" c10Meta (some ⟨1/4, false⟩) _ h
  refine ⟨this.1, this.2.1, this.2.2.1, ?_⟩
  have h8 := this.2.2.2 ⟨8, "y"⟩ (by decide)
  exact h8

/-! ## C5 — construction-time validation -/

/-- What a successful construction determines about the dataset object
(shared inversion helper). -/
theorem initDataset_ok_inversion (cut : ℚ) (frame_size : ℤ) (setting : String)
    (meta : List Row) (keep : Option PyNum) (ds : VideoDataset)
    (h : initDataset cut frame_size setting meta keep = .ok ds) :
    ds.cut = cut ∧ ds.frame_size = frame_size ∧ ds.setting = setting
    ∧ ds.aug_seq = composeAugSeq frame_size setting
    ∧ subsetMeta meta keep = .ok ds.meta
    ∧ (0 ≤ cut ∧ cut ≤ 1) ∧ (setting = "train" ∨ setting = "eval") := by
  rw [initDataset] at h
  by_cases h1 : ¬(0 ≤ cut ∧ cut ≤ 1)
  · rw [if_pos h1] at h; exact Except.noConfusion h
  rw [if_neg h1] at h
  by_cases h2 : ¬(setting = "train" ∨ setting = "eval")
  · rw [if_pos h2] at h; exact Except.noConfusion h
  rw [if_neg h2] at h
  cases hsub : subsetMeta meta keep with
  | error e => rw [hsub] at h; exact Except.noConfusion h
  | ok m =>
      rw [hsub] at h
      injection h with h'
      subst h'
      exact ⟨rfl, rfl, rfl, rfl, rfl, not_not.1 h1, not_not.1 h2⟩

/-- `subsetMeta` never raises the construction asserts' error: its failures
are pandas' `ValueError`/`TypeError`. -/
theorem subsetMeta_no_config (meta : List Row) (keep : Option PyNum) (msg : String) :
    subsetMeta meta keep ≠ .error (.config msg) := by
  cases keep with
  | none => exact fun hc => Except.noConfusion hc
  | some k =>
    rw [subsetMeta]
    by_cases hk : 0 ≤ k.val ∧ k.val < 1
    · rw [if_pos hk]
      unfold stratifiedSampleMeta
      cases meta with
      | nil => intro hc; injection hc with hc'; exact PyError.noConfusion hc'
      | cons a l => exact fun hc => Except.noConfusion hc
    · rw [if_neg hk]
      by_cases hi : k.isInt
      · rw [if_pos hi]; exact fun hc => Except.noConfusion hc
      · rw [if_neg hi]; intro hc; injection hc with hc'; exact PyError.noConfusion hc'

/-- C5 fails as stated at `cut = 1/2`, `frame_size = -1`,
`setting = "train"`: the claim demands failure on an invalid `frame_size`,
but the constructor validates only `cut` and `setting`, so construction
succeeds. -/
theorem c5_counterexample :
    ¬ (((initDataset (1/2) (-1) "train" [⟨0, "a"⟩] none).isOk = false)
        ↔ (¬((0:ℚ) ≤ 1/2 ∧ (1/2:ℚ) ≤ 1)
            ∨ ¬("train" = "train" ∨ "train" = "eval")
            ∨ (-1 : ℤ) ≤ 0)) := by
  have hok : initDataset (1/2) (-1) "train" [⟨0, "a"⟩] none
      = .ok { cut := 1/2, frame_size := -1, setting := "train",
              meta := [⟨0, "a"⟩],
              lids := uniqueLids [⟨0, "a"⟩],
              lid2labels := lid2labels [⟨0, "a"⟩],
              labels2lid := labels2lid [⟨0, "a"⟩],
              aug_seq := composeAugSeq (-1) "train" } := by
    rw [initDataset,
      if_neg (show ¬¬((0:ℚ) ≤ 1/2 ∧ (1/2:ℚ) ≤ 1) from
        fun hc => hc ⟨by norm_num, by norm_num⟩),
      if_neg (show ¬¬("train" = "train" ∨ "train" = "eval") from
        fun hc => hc (Or.inl rfl))]
    rfl
  intro hiff
  have : (initDataset (1/2) (-1) "train" [⟨0, "a"⟩] none).isOk = false :=
    hiff.2 (Or.inr (Or.inr (by norm_num)))
  rw [hok] at this
  exact Bool.noConfusion this

/-- A well-formed `keep` per the spec's configuration surface
(`float ∈ [0,1) | int ≥ 1 | none`); the fractional branch additionally
needs a non-empty table (see C1). -/
def keepOk (meta : List Row) : Option PyNum → Prop
  | none => True
  | some k => (0 ≤ k.val ∧ k.val < 1 ∧ meta ≠ []) ∨ (k.isInt = true ∧ 1 ≤ k.val)

/-- C5 (amended: `frame_size` is NOT validated): construction fails with
`ConfigurationError` exactly when `cut ∉ [0,1]` or
`setting ∉ {train, eval}`; with those valid and a well-formed `keep`,
construction succeeds for every `frame_size`. -/
theorem c5_validation (cut : ℚ) (frame_size : ℤ) (setting : String)
    (meta : List Row) (keep : Option PyNum) :
    ((∃ msg, initDataset cut frame_size setting meta keep = .error (.config msg))
        ↔ (¬(0 ≤ cut ∧ cut ≤ 1) ∨ ¬(setting = "train" ∨ setting = "eval")))
    ∧ ((0 ≤ cut ∧ cut ≤ 1) → (setting = "train" ∨ setting = "eval") →
        keepOk meta keep →
        ∃ ds, initDataset cut frame_size setting meta keep = .ok ds) := by
  constructor
  · constructor
    · rintro ⟨msg, hmsg⟩
      by_contra hc
      push_neg at hc
      rw [initDataset, if_neg (not_not.2 hc.1), if_neg (not_not.2 hc.2)] at hmsg
      cases hsub : subsetMeta meta keep with
      | error e =>
        rw [hsub] at hmsg
        injection hmsg with h'
        exact subsetMeta_no_config meta keep msg (hsub.trans (by rw [h']))
      | ok m => rw [hsub] at hmsg; exact Except.noConfusion hmsg
    · intro hbad
      rcases hbad with h1 | h2
      · exact ⟨"cut", by rw [initDataset, if_pos h1]⟩
      · by_cases h1 : ¬(0 ≤ cut ∧ cut ≤ 1)
        · exact ⟨"cut", by rw [initDataset, if_pos h1]⟩
        · exact ⟨"setting", by rw [initDataset, if_neg h1, if_pos h2]⟩
  · intro h1 h2 hkeep
    have hsub : ∃ m, subsetMeta meta keep = .ok m := by
      cases keep with
      | none => exact ⟨meta, rfl⟩
      | some k =>
        rcases hkeep with ⟨hk0, hk1, hne⟩ | ⟨hint, hge⟩
        · rw [subsetMeta, if_pos ⟨hk0, hk1⟩]
          cases meta with
          | nil => exact absurd rfl hne
          | cons a l => exact ⟨_, rfl⟩
        · rw [subsetMeta, if_neg (fun hc => absurd hge (not_le.2 hc.2)), if_pos hint]
          exact ⟨_, rfl⟩
    obtain ⟨m, hm⟩ := hsub
    refine ⟨{ cut := cut, frame_size := frame_size, setting := setting,
              meta := m, lids := uniqueLids meta,
              lid2labels := lid2labels meta, labels2lid := labels2lid meta,
              aug_seq := composeAugSeq frame_size setting }, ?_⟩
    rw [initDataset, if_neg (not_not.2 h1), if_neg (not_not.2 h2), hm]

/-- Witness for C5: a valid configuration (`cut = 1/2`, `setting = train`,
no `keep`) constructs successfully, whatever the `frame_size`. -/
theorem c5_validation_witness :
    ∃ ds, initDataset (1/2) 224 "train" [⟨0, "a"⟩] none = .ok ds :=
  (c5_validation (1/2) 224 "train" [⟨0, "a"⟩] none).2
    ⟨by norm_num, by norm_num⟩ (Or.inl rfl) trivial

/-! ## C8 — the composed augmentation sequence -/

theorem composeAugSeq_eq_spec224 (frame_size : ℤ) (setting : String) :
    composeAugSeq frame_size setting = specAugSeq 224 setting := by
  unfold composeAugSeq specAugSeq
  split <;> rfl

/-- C8 fails as stated at `frame_size = 112`, `setting = "train"`: the
composed sequence pads and crops at the hardcoded `224 × 224`, not at
`frame_size × frame_size` as the claim (following the spec) demands. -/
theorem c8_counterexample :
    composeAugSeq 112 "train" ≠ specAugSeq 112 "train" := by
  simp [composeAugSeq, specAugSeq]

/-- C8 (amended: the fixed size is the hardcoded `224 × 224`, regardless of
the `frame_size` argument): the sequence depends only on the setting; for
`train` it is pad/crop to `224 × 224` at random (`uniform`) offset, the two
flips at p = 1/2 and the two additive jitters in `±25`; for `eval` only
center-anchored pad/crop; and `to_tensor` maps every valid (`≤ 255`) pixel
into `[0,1]`. -/
theorem c8_aug_seq (cut : ℚ) (frame_size : ℤ) (setting : String)
    (meta : List Row) (keep : Option PyNum) (ds : VideoDataset)
    (h : initDataset cut frame_size setting meta keep = .ok ds) :
    ds.aug_seq = specAugSeq 224 ds.setting
    ∧ (∀ fs' : ℤ, composeAugSeq fs' ds.setting = ds.aug_seq)
    ∧ (ds.setting = "train" →
        ds.aug_seq = [ .padToFixedSize 224 224 "uniform",
          .cropToFixedSize 224 224 "uniform",
          .fliplr (1/2), .flipud (1/2),
          .add (-25) 25, .addToHueAndSaturation (-25) 25 ])
    ∧ (ds.setting = "eval" →
        ds.aug_seq = [ .padToFixedSize 224 224 "center",
          .cropToFixedSize 224 224 "center" ])
    ∧ (∀ pixels : List ℕ, (∀ p ∈ pixels, p ≤ 255) →
        ∀ v ∈ toTensorValues pixels, 0 ≤ v ∧ v ≤ 1) := by
  obtain ⟨-, -, hset, haug, -, -, -⟩ :=
    initDataset_ok_inversion cut frame_size setting meta keep ds h
  subst hset
  refine ⟨by rw [haug, composeAugSeq_eq_spec224], ?_, ?_, ?_, ?_⟩
  · intro fs'
    rw [haug, composeAugSeq_eq_spec224, composeAugSeq_eq_spec224]
  · intro htrain
    rw [haug, htrain]
    rfl
  · intro heval
    rw [haug, heval]
    rfl
  · intro pixels hpix v hv
    rw [toTensorValues, List.mem_map] at hv
    obtain ⟨p, hp, rfl⟩ := hv
    refine ⟨by positivity, ?_⟩
    rw [div_le_one (by norm_num)]
    exact_mod_cast hpix p hp

/-- Witness for C8: a dataset built with `frame_size = 112` in `train`
setting still gets the 224-sized sequence, and `to_tensor` of the pixel
list `[0, 128, 255]` stays in `[0,1]`. -/
theorem c8_aug_seq_witness :
    ∃ ds, initDataset 1 112 "train" [⟨0, "a"⟩] none = .ok ds
      ∧ ds.aug_seq = specAugSeq 224 ds.setting
      ∧ (∀ v ∈ toTensorValues [0, 128, 255], 0 ≤ v ∧ v ≤ 1) := by
  have hok : initDataset 1 112 "train" [⟨0, "a"⟩] none
      = .ok { cut := 1, frame_size := 112, setting := "train",
              meta := [⟨0, "a"⟩],
              lids := uniqueLids [⟨0, "a"⟩],
              lid2labels := lid2labels [⟨0, "a"⟩],
              labels2lid := labels2lid [⟨0, "a"⟩],
              aug_seq := composeAugSeq 112 "train" } := by
    rw [initDataset,
      if_neg (show ¬¬((0:ℚ) ≤ 1 ∧ (1:ℚ) ≤ 1) from
        fun hc => hc ⟨by norm_num, by norm_num⟩),
      if_neg (show ¬¬("train" = "train" ∨ "train" = "eval") from
        fun hc => hc (Or.inl rfl))]
    rfl
  have hmain := c8_aug_seq 1 112 "train" [⟨0, "a"⟩] none _ hok
  exact ⟨_, hok, hmain.1, fun v hv =>
    hmain.2.2.2.2 [0, 128, 255] (by decide) v hv⟩

/-! ## C2 — one parameter draw per sample, replayed across frames -/

/-- Running a DETERMINISTIC augmenter over a frame list replays the frozen
state for every frame: each frame's recorded parameters are the draw from
the initial state, and the state never advances. -/
theorem augRun_deterministic (a : Augmenter) (hdet : a.deterministic = true) :
    ∀ frames : List Frame,
      (augRun a frames).1
          = frames.map (fun f =>
              (paramsOfState a.state,
                f + (paramsOfState a.state).addVal + (paramsOfState a.state).hueSatVal))
        ∧ (augRun a frames).2 = a := by
  intro frames
  induction frames with
  | nil => exact ⟨rfl, rfl⟩
  | cons f fs ih =>
    have hstep : augmentImage a f
        = ((paramsOfState a.state,
            f + (paramsOfState a.state).addVal + (paramsOfState a.state).hueSatVal), a) := by
      rw [augmentImage]
      simp [hdet]
    constructor
    · show (augRun a (f :: fs)).1 = _
      rw [augRun, hstep]
      dsimp only
      rw [ih.1, List.map_cons]
    · show (augRun a (f :: fs)).2 = a
      rw [augRun, hstep]
      dsimp only
      exact ih.2

/-- C2: `VideoDataset.aug` calls `to_deterministic()` once per sample and
augments every frame with that frozen instance, so any two frames of the
same sample receive the SAME parameter record (same crop offset, same flip
decisions, same brightness and hue/saturation jitter) — the whole record
is one draw from the sample's state, replayed per frame. -/
theorem c2_aug_params_constant (a : Augmenter) (frames : List Frame) :
    ((VideoDataset.aug a frames).map Prod.fst
        = frames.map (fun _ => paramsOfState a.state))
    ∧ (∀ p ∈ (VideoDataset.aug a frames).map Prod.fst,
        ∀ q ∈ (VideoDataset.aug a frames).map Prod.fst, p = q) := by
  have hrun := augRun_deterministic (toDeterministic a) rfl frames
  have hmap : (VideoDataset.aug a frames).map Prod.fst
      = frames.map (fun _ => paramsOfState a.state) := by
    rw [VideoDataset.aug, hrun.1, List.map_map]
    rfl
  refine ⟨hmap, ?_⟩
  intro p hp q hq
  rw [hmap] at hp hq
  obtain ⟨_, _, rfl⟩ := List.mem_map.1 hp
  obtain ⟨_, _, rfl⟩ := List.mem_map.1 hq
  rfl

/-- Witness for C2 at a concrete sample: three frames augmented from the
state 12345 all record the same parameters. -/
theorem c2_aug_params_constant_witness :
    (VideoDataset.aug ⟨12345, false⟩ [7, 8, 9]).map Prod.fst
      = [paramsOfState 12345, paramsOfState 12345, paramsOfState 12345]
    ∧ paramsOfState 12345 = paramsOfState 12345 := by
  constructor
  · rw [(c2_aug_params_constant ⟨12345, false⟩ [7, 8, 9]).1]
    rfl
  · exact (c2_aug_params_constant ⟨12345, false⟩ [7, 8, 9]).2
      (paramsOfState 12345) (by decide)
      (paramsOfState 12345) (by decide)

/-! ## Collation lemmas -/

theorem stack_ok_of_uniform (ts : List Tensor) (s : List ℕ)
    (hne : ts ≠ []) (hall : ∀ t ∈ ts, t.shape = s) :
    stack ts = .ok { shape := ts.length :: s
                     data := (ts.map (fun t => t.data)).flatten } := by
  cases ts with
  | nil => exact absurd rfl hne
  | cons t rest =>
    have hcond : rest.all (fun u => u.shape == t.shape) = true := by
      rw [List.all_eq_true]
      intro u hu
      rw [beq_iff_eq, hall u (List.mem_cons_of_mem _ hu),
        hall t (List.mem_cons_self _ _)]
    rw [stack, if_pos hcond, hall t (List.mem_cons_self _ _)]

theorem stack_err_of_mismatch (ts : List Tensor) (t1 t2 : Tensor)
    (h1 : t1 ∈ ts) (h2 : t2 ∈ ts) (hne : t1.shape ≠ t2.shape) :
    stack ts = .error .shapeMismatch := by
  cases ts with
  | nil => simp at h1
  | cons t rest =>
    have hcond : ¬(rest.all (fun u => u.shape == t.shape) = true) := by
      intro hall
      rw [List.all_eq_true] at hall
      have hshape : ∀ u ∈ t :: rest, u.shape = t.shape := by
        intro u hu
        rcases List.mem_cons.1 hu with rfl | hu'
        · rfl
        · exact beq_iff_eq.1 (hall u hu')
      exact hne ((hshape t1 h1).trans (hshape t2 h2).symm)
    rw [stack, if_neg hcond]

/-- Pointwise-successful `mapM` over `Except` computes the map. -/
theorem mapM_eq_map_of_ok {α β ε : Type} (f : α → Except ε β) (g : α → β) :
    ∀ l : List α, (∀ x ∈ l, f x = .ok (g x)) → l.mapM f = .ok (l.map g) := by
  intro l
  induction l with
  | nil => intro _; rfl
  | cons x xs ih =>
    intro hall
    rw [List.mapM_cons, hall x (List.mem_cons_self _ _),
      ih (fun y hy => hall y (List.mem_cons_of_mem _ hy))]
    rfl

/-- The common shape of one video's frames (well defined when the video is
uniform). -/
def frameShape (v : Video) : List ℕ :=
  (v.data.head?.getD { shape := [], data := [] }).shape

/-- The frame tensor stacked for one video by the inner `th.stack`. -/
def videoStack (v : Video) : Tensor :=
  { shape := v.data.length :: frameShape v
    data := (v.data.map (fun t => t.data)).flatten }

theorem frameShape_eq {v : Video} {s : List ℕ} (hne : v.data ≠ [])
    (hall : ∀ f ∈ v.data, f.shape = s) : frameShape v = s := by
  cases hd : v.data with
  | nil => exact absurd hd hne
  | cons f fs =>
    rw [frameShape, hd]
    exact hall f (by rw [hd]; exact List.mem_cons_self _ _)

theorem stack_video_ok {v : Video} (hne : v.data ≠ [])
    (hall : ∀ f ∈ v.data, f.shape = frameShape v) :
    stack v.data = .ok (videoStack v) :=
  stack_ok_of_uniform v.data (frameShape v) hne hall

theorem unzipBatch_ok (batch : List (Video × Label)) (hne : batch ≠ []) :
    unzipBatch batch = .ok (batch.map Prod.fst, batch.map Prod.snd) := by
  cases batch with
  | nil => exact absurd rfl hne
  | cons a l => rfl

/-! ## C6 — collation of a uniform batch -/

/-- C6: for a non-empty batch whose videos all carry `T ≥ 1` frames of one
spatial size `[C, H, W]`, `collate` succeeds with a stacked video tensor of
shape `[B, T, C, H, W]`, an `int64` label tensor of shape `[B]` holding the
label ids, and the untouched `Video`/`Label` objects passed through. -/
theorem c6_collate_shapes (batch : List (Video × Label)) (T C H W : ℕ)
    (hne : batch ≠ []) (hT : 0 < T)
    (hframes : ∀ pr ∈ batch, pr.1.data.length = T
        ∧ ∀ f ∈ pr.1.data, f.shape = [C, H, W]) :
    ∃ vt : Tensor,
      collate batch
        = .ok (vt,
            { shape := [batch.length],
              data := batch.map (fun pr => pr.2.data), dtype := "int64" },
            batch.map Prod.fst, batch.map Prod.snd)
      ∧ vt.shape = [batch.length, T, C, H, W] := by
  have hper : ∀ pr ∈ batch, stack pr.1.data = .ok (videoStack pr.1)
      ∧ (videoStack pr.1).shape = [T, C, H, W] := by
    intro pr hpr
    have h1 := (hframes pr hpr).1
    have h2 := (hframes pr hpr).2
    have hvne : pr.1.data ≠ [] := by
      intro hnil
      rw [hnil] at h1
      simp at h1
      omega
    have hfs : frameShape pr.1 = [C, H, W] := frameShape_eq hvne h2
    refine ⟨stack_video_ok hvne (fun f hf => by rw [h2 f hf, hfs]), ?_⟩
    show pr.1.data.length :: frameShape pr.1 = [T, C, H, W]
    rw [h1, hfs]
  have hinner : (batch.map Prod.fst).mapM (fun v => stack v.data)
      = .ok ((batch.map Prod.fst).map videoStack) := by
    apply mapM_eq_map_of_ok
    intro v hv
    obtain ⟨pr, hpr, rfl⟩ := List.mem_map.1 hv
    exact (hper pr hpr).1
  have houter : stack ((batch.map Prod.fst).map videoStack)
      = .ok { shape := ((batch.map Prod.fst).map videoStack).length :: [T, C, H, W]
              data := (((batch.map Prod.fst).map videoStack).map
                (fun t => t.data)).flatten } := by
    apply stack_ok_of_uniform
    · intro hc
      rcases List.map_eq_nil_iff.1 (List.map_eq_nil_iff.1 hc) with h
      exact hne h
    · intro t ht
      obtain ⟨v, hv, rfl⟩ := List.mem_map.1 ht
      obtain ⟨pr, hpr, rfl⟩ := List.mem_map.1 hv
      exact (hper pr hpr).2
  refine ⟨{ shape := ((batch.map Prod.fst).map videoStack).length :: [T, C, H, W],
            data := (((batch.map Prod.fst).map videoStack).map
              (fun t => t.data)).flatten }, ?_, ?_⟩
  · rw [collate, unzipBatch_ok batch hne]
    dsimp only
    rw [hinner]
    dsimp only
    rw [houter]
    dsimp only
    simp only [List.length_map, List.map_map]
    rfl
  · show ((batch.map Prod.fst).map videoStack).length :: [T, C, H, W]
        = [batch.length, T, C, H, W]
    simp [List.length_map]

/-! ## C7 — collation surfaces shape mismatches -/

/-- C7: if each video of the batch is internally uniform and non-empty but
two samples disagree on frame count or on spatial size, `collate` fails
with the shape-mismatch error — the inconsistency is surfaced by the stack,
not padded or truncated away. -/
theorem c7_collate_shape_mismatch (batch : List (Video × Label))
    (hvalid : ∀ pr ∈ batch, pr.1.data ≠ []
        ∧ ∀ f ∈ pr.1.data, f.shape = frameShape pr.1)
    (hdis : ∃ pr1 ∈ batch, ∃ pr2 ∈ batch,
        pr1.1.data.length ≠ pr2.1.data.length ∨ frameShape pr1.1 ≠ frameShape pr2.1) :
    collate batch = .error .shapeMismatch := by
  obtain ⟨pr1, hpr1, pr2, hpr2, hd⟩ := hdis
  have hne : batch ≠ [] := by
    intro h
    rw [h] at hpr1
    simp at hpr1
  have hinner : (batch.map Prod.fst).mapM (fun v => stack v.data)
      = .ok ((batch.map Prod.fst).map videoStack) := by
    apply mapM_eq_map_of_ok
    intro v hv
    obtain ⟨pr, hpr, rfl⟩ := List.mem_map.1 hv
    exact stack_video_ok (hvalid pr hpr).1 (hvalid pr hpr).2
  have houter : stack ((batch.map Prod.fst).map videoStack)
      = .error .shapeMismatch := by
    apply stack_err_of_mismatch _ (videoStack pr1.1) (videoStack pr2.1)
    · exact List.mem_map.2 ⟨pr1.1, List.mem_map.2 ⟨pr1, hpr1, rfl⟩, rfl⟩
    · exact List.mem_map.2 ⟨pr2.1, List.mem_map.2 ⟨pr2, hpr2, rfl⟩, rfl⟩
    · show pr1.1.data.length :: frameShape pr1.1
          ≠ pr2.1.data.length :: frameShape pr2.1
      intro hc
      injection hc with hlen hshape
      rcases hd with hl | hs
      · exact hl hlen
      · exact hs hshape
  rw [collate, unzipBatch_ok batch hne]
  dsimp only
  rw [hinner]
  dsimp only
  rw [houter]

/-! ## C9 — collate requires a non-empty batch -/

/-- C9: on the empty batch the unpacking `videos, labels = zip(*batch)`
raises (no empty tensors are returned); on every non-empty batch the
unpacking succeeds with two sequences of the batch's length. -/
theorem c9_collate_empty_batch :
    collate [] = .error .emptyBatch
    ∧ ∀ batch : List (Video × Label), batch ≠ [] →
        unzipBatch batch = .ok (batch.map Prod.fst, batch.map Prod.snd)
        ∧ (batch.map Prod.fst).length = batch.length
        ∧ (batch.map Prod.snd).length = batch.length := by
  refine ⟨rfl, ?_⟩
  intro batch hne
  exact ⟨unzipBatch_ok batch hne, List.length_map _ _, List.length_map _ _⟩

/-- A frame tensor of shape `[3, 224, 224]` used by concrete batches. -/
def sampleFrame : Tensor := { shape := [3, 224, 224], data := [] }

/-- A two-frame video used by concrete batches. -/
def sampleVideo : Video := { meta := ⟨0, "a"⟩, data := [sampleFrame, sampleFrame] }

/-- A one-frame video (frame count disagrees with `sampleVideo`). -/
def shortVideo : Video := { meta := ⟨4, "b"⟩, data := [sampleFrame] }

/-- A uniform two-sample batch. -/
def sampleBatch : List (Video × Label) :=
  [(sampleVideo, mkLabel ⟨0, "a"⟩), (sampleVideo, mkLabel ⟨4, "b"⟩)]

/-- A batch whose two samples disagree on frame count. -/
def mismatchBatch : List (Video × Label) :=
  [(sampleVideo, mkLabel ⟨0, "a"⟩), (shortVideo, mkLabel ⟨4, "b"⟩)]

/-- Witness for C6: a batch of two two-frame `[3,224,224]` videos collates
to a `[2, 2, 3, 224, 224]` video tensor and a length-2 `int64` label
tensor. -/
theorem c6_collate_shapes_witness :
    ∃ vt : Tensor,
      collate sampleBatch
        = .ok (vt,
            { shape := [sampleBatch.length],
              data := sampleBatch.map (fun pr => pr.2.data), dtype := "int64" },
            sampleBatch.map Prod.fst, sampleBatch.map Prod.snd)
      ∧ vt.shape = [sampleBatch.length, 2, 3, 224, 224] :=
  c6_collate_shapes sampleBatch 2 3 224 224 (by decide) (by decide) (by decide)

/-- Witness for C7: a batch pairing a two-frame video with a one-frame
video collates to the shape-mismatch error. -/
theorem c7_collate_shape_mismatch_witness :
    collate mismatchBatch = .error .shapeMismatch :=
  c7_collate_shape_mismatch mismatchBatch (by decide) (by decide)

/-- Witness for C9: unpacking a one-sample batch succeeds with two
length-1 sequences. -/
theorem c9_collate_empty_batch_witness :
    unzipBatch [(sampleVideo, mkLabel ⟨0, "a"⟩)]
      = .ok ([(sampleVideo, mkLabel ⟨0, "a"⟩)].map Prod.fst,
             [(sampleVideo, mkLabel ⟨0, "a"⟩)].map Prod.snd)
    ∧ ([(sampleVideo, mkLabel ⟨0, "a"⟩)].map Prod.fst).length
        = [(sampleVideo, mkLabel ⟨0, "a"⟩)].length
    ∧ ([(sampleVideo, mkLabel ⟨0, "a"⟩)].map Prod.snd).length
        = [(sampleVideo, mkLabel ⟨0, "a"⟩)].length :=
  c9_collate_empty_batch.2 [(sampleVideo, mkLabel ⟨0, "a"⟩)] (by decide)

/-! ## C3 — sampler index bounds (spec-modelled) -/

theorem binHi_le {n segs i : ℕ} (hi : i < segs) : binHi n segs i ≤ n := by
  have hsegs : 0 < segs := lt_of_le_of_lt (Nat.zero_le i) hi
  calc (i + 1) * n / segs ≤ segs * n / segs :=
        Nat.div_le_div_right (Nat.mul_le_mul_right n hi)
    _ = n := Nat.mul_div_cancel_left n hsegs

theorem evalSample_lt (length segs : ℕ) (cut : ℚ) :
    ∀ idx ∈ evalSample length segs cut, idx < eligibleFrames length cut := by
  intro idx h
  rw [evalSample] at h
  by_cases hn : eligibleFrames length cut = 0
  · rw [if_pos hn] at h
    simp at h
  · rw [if_neg hn] at h
    obtain ⟨i, _, rfl⟩ := List.mem_map.1 h
    have := Nat.min_le_right
      ((binLo (eligibleFrames length cut) segs i
        + binHi (eligibleFrames length cut) segs i) / 2)
      (eligibleFrames length cut - 1)
    omega

theorem trainSample_lt (length segs : ℕ) (cut : ℚ) (r : ℕ → ℕ) :
    ∀ idx ∈ trainSample length segs cut r, idx < eligibleFrames length cut := by
  intro idx h
  rw [trainSample] at h
  by_cases hn : eligibleFrames length cut = 0
  · rw [if_pos hn] at h
    simp at h
  · rw [if_neg hn] at h
    obtain ⟨i, hi, rfl⟩ := List.mem_map.1 h
    rw [List.mem_range] at hi
    by_cases hw : binLo (eligibleFrames length cut) segs i
        < binHi (eligibleFrames length cut) segs i
    · rw [if_pos hw]
      have hmod : r i % (binHi (eligibleFrames length cut) segs i
          - binLo (eligibleFrames length cut) segs i)
          < binHi (eligibleFrames length cut) segs i
            - binLo (eligibleFrames length cut) segs i :=
        Nat.mod_lt _ (by omega)
      have hhi := binHi_le (n := eligibleFrames length cut) hi
      omega
    · rw [if_neg hw]
      have := Nat.min_le_right (binLo (eligibleFrames length cut) segs i)
        (eligibleFrames length cut - 1)
      omega

set_option linter.unusedVariables false in
/-- C3 (spec-modelled: the sampler source `databunch/video.py` is not in
the tree; `evalSample`/`trainSample` model §4.2's rule): for every
`cut ∈ [0,1]`, clip length, segment count and setting, every produced
frame index lies in `[0, floor(length * cut))`; when at least one frame is
eligible the sampler returns exactly `num_segments` indices; and at the
boundary `length = 1, num_segments = 4` (with `cut = 1`) it returns 4
valid — necessarily repeated — indices inside `[0, 1)` instead of
failing. -/
theorem c3_sampler_bounds (setting : String) (length segs : ℕ) (cut : ℚ)
    (r : ℕ → ℕ) (hc0 : 0 ≤ cut) (hc1 : cut ≤ 1) :
    (∀ idx ∈ sampleIndices setting length segs cut r,
        idx < eligibleFrames length cut)
    ∧ (0 < eligibleFrames length cut →
        (sampleIndices setting length segs cut r).length = segs)
    ∧ ((sampleIndices setting 1 4 1 r).length = 4
        ∧ ∀ idx ∈ sampleIndices setting 1 4 1 r, idx < 1) := by
  have hbound : ∀ (l s : ℕ) (c : ℚ),
      ∀ idx ∈ sampleIndices setting l s c r, idx < eligibleFrames l c := by
    intro l s c idx h
    rw [sampleIndices] at h
    by_cases hs : (setting == "train") = true
    · rw [if_pos hs] at h
      exact trainSample_lt l s c r idx h
    · rw [if_neg hs] at h
      exact evalSample_lt l s c idx h
  have hlen : ∀ (l s : ℕ) (c : ℚ), 0 < eligibleFrames l c →
      (sampleIndices setting l s c r).length = s := by
    intro l s c hpos
    rw [sampleIndices]
    by_cases hs : (setting == "train") = true
    · rw [if_pos hs, trainSample, if_neg (by omega), List.length_map,
        List.length_range]
    · rw [if_neg hs, evalSample, if_neg (by omega), List.length_map,
        List.length_range]
  have he11 : eligibleFrames 1 1 = 1 := by
    rw [eligibleFrames]
    norm_num
  refine ⟨hbound length segs cut, hlen length segs cut, ?_, ?_⟩
  · rw [hlen 1 4 1 (by omega)]
  · intro idx h
    have := hbound 1 4 1 idx h
    omega

/-- Witness for C3 at `cut = 1/2`, `length = 10`, `num_segments = 4`,
`train` setting with the identity stand-in for the per-bin random
draws. -/
theorem c3_sampler_bounds_witness :
    (∀ idx ∈ sampleIndices "train" 10 4 (1/2) id,
        idx < eligibleFrames 10 (1/2))
    ∧ (0 < eligibleFrames 10 (1/2) →
        (sampleIndices "train" 10 4 (1/2) id).length = 4)
    ∧ ((sampleIndices "train" 1 4 1 id).length = 4
        ∧ ∀ idx ∈ sampleIndices "train" 1 4 1 id, idx < 1) :=
  c3_sampler_bounds "train" 10 4 (1/2) id (by norm_num) (by norm_num)

end TAVAE
